import Mathlib

/-!
Shallow embedding of `rubiojr/slkops` (src/main.go), a polling-based
terminal chat client built on bubbletea.  The embedding covers the core
session controller: the `model` struct, `appendToHistory`,
`navigateHistory`, the `Update` event handler (message merge, sync
cursor, history submission, timer ticks) and the commands the handler
launches.

External collaborators are kept abstract, faithful to how `main.go`
consumes them:
* `SlackClient` (a second file of the repository, not under `src/`) is
  reached only through the events its completions inject
  (`fetchMessagesMsg`, `sendMessageMsg`) and through
  `UsernameForMessage`, modelled as the oracle `Ctx.resolveUser`.
* `int64(strconv.ParseFloat(ts, 64))` — timestamp derivation — is the
  oracle `Ctx.parseTs` (IEEE-754 parsing and Go's out-of-range
  float-to-int conversion are implementation-defined and kept abstract).
* The lipgloss-styled `fmt.Sprintf` that builds a display line is the
  oracle `Ctx.renderLine` (cosmetic).
* `sort.Slice` is the oracle `Ctx.sortImpl`; its documented contract —
  the output is a permutation of the input, sorted by the supplied
  comparison, with stability explicitly NOT guaranteed — is the
  predicate `SortSpec`.
* The history-file append (`os.OpenFile`/`WriteString`) outcome is the
  oracle `Ctx.historyWriteErr`.
* The bubbles `textinput`/`viewport` components are out of scope except
  for the data the controller reads and writes: the input's text value
  (`Model.inputValue`) and the viewport content string
  (`Model.viewportContent`).
-/

namespace Slkops

/-- A message as returned by the Slack client: `Ts` (the id), `Text`,
and the sender reference consumed by `UsernameForMessage`. -/
structure SlackMessage where
  ts : String
  text : String
  user : String
deriving DecidableEq, Repr

/-- Embeds `formattedMessage` (main.go lines 54-58): rendered line,
timestamp in whole seconds, and the message id. -/
structure FormattedMessage where
  text : String
  timestamp : Int
  id : String
deriving DecidableEq, Repr

/-- Embeds the core fields of `model` (main.go lines 60-77).  The Go map
`messageIDs map[string]bool` (only ever set to `true`) is modelled as the
list of its keys; `input` and `viewport` are external components of which
only the text value and the rendered content are modelled. -/
structure Model where
  channelID : String
  channelName : String
  messages : List FormattedMessage
  messageIDs : List String
  inputValue : String
  viewportContent : String
  err : Option String
  ready : Bool
  lastFetched : String
  history : List String
  historyIndex : Int
  browsingHist : Bool
  refreshCount : Int
  needsRedraw : Bool
deriving DecidableEq, Repr

/-- The commands `Update` can launch (tea.Cmd values built in main.go):
`tea.Quit`, `tick()`, `fetchMessages(client, channelID, since)`, and the
`tea.Sequence(sendMessage(...), tea.Tick(500ms, ...))` pair built on
submit.  The component pass-through commands (`tiCmd`, `vpCmd`: cursor
blink and scrolling) are external and not modelled. -/
inductive Cmd where
  | quit
  | tick
  | fetchMessages (channelID since : String)
  | sendThenDelayedRefresh (channelID text : String)
deriving DecidableEq, Repr

/-- The events `Update` dispatches on.  `fetchCompleted none none` is the
nil-messages sentinel produced by the 500ms delayed refresh
(`fetchMessagesMsg{nil, nil}`); a real fetch completion carries
`some batch`.  `keyOther` carries the input text as updated by the
external textinput component. -/
inductive Event where
  | keyEsc
  | keyCtrlC
  | keyEnter
  | keyUp
  | keyDown
  | keyOther (newInput : String)
  | windowSize (width height : Int)
  | redrawViewport
  | tick
  | fetchCompleted (messages : Option (List SlackMessage)) (err : Option String)
  | sendCompleted (err : Option String)
deriving DecidableEq, Repr

/-- The abstract collaborators one `Update` call consumes (see the module
docstring). -/
structure Ctx where
  resolveUser : SlackMessage → Option String
  parseTs : String → Int
  renderLine : Int → String → String → String
  sortImpl : List FormattedMessage → List FormattedMessage
  historyWriteErr : Option String

/-- Go's `unicode.IsSpace`: the Latin-1 space set plus the Unicode
White_Space code points. -/
def goIsSpace (c : Char) : Bool :=
  c == '\t' || c == '\n' || c == '\x0B' || c == '\x0C' || c == '\r' ||
  c == ' ' || c == '\u0085' || c == '\u00A0' || c == '\u1680' ||
  (decide ('\u2000' ≤ c) && decide (c ≤ '\u200A')) ||
  c == '\u2028' || c == '\u2029' || c == '\u202F' || c == '\u205F' || c == '\u3000'

/-- Embeds the test `strings.TrimSpace(s) == ""`: true iff every
character of `s` is white space. -/
def isBlank (s : String) : Bool :=
  s.data.all goIsSpace

/-- Embeds `initialModel` (main.go lines 79-147) after its start-up IO:
`channelName` is the resolved name (or the raw id on lookup failure) and
`history` the lines loaded from the history file. -/
def initialModel (channelID channelName : String) (history : List String) : Model :=
  { channelID := channelID
    channelName := channelName
    messages := []
    messageIDs := []
    inputValue := ""
    viewportContent := ""
    err := none
    ready := false
    lastFetched := ""
    history := history
    historyIndex := (history.length : Int)
    browsingHist := false
    refreshCount := 0
    needsRedraw := false }

/-- Embeds `appendToHistory` (main.go lines 178-199): reject blank or
immediate-duplicate input (no-op, nil error); otherwise append in
memory, reset the cursor to the new length, then attempt the durable
write, whose outcome (`ctx.historyWriteErr`) is returned without rolling
back the in-memory append.  `m.history.getLast? = some message` is
`len(m.history) > 0 && m.history[len(m.history)-1] == message`. -/
def appendToHistory (ctx : Ctx) (m : Model) (message : String) : Model × Option String :=
  if isBlank message then (m, none)
  else if m.history.getLast? = some message then (m, none)
  else
    ({ m with
        history := m.history ++ [message]
        historyIndex := ((m.history ++ [message]).length : Int) },
     ctx.historyWriteErr)

/-- The two bounds checks of `navigateHistory` (main.go lines 204-209):
clamp an index into `[0, len]`. -/
def clampIndex (i : Int) (len : Nat) : Int :=
  if i < 0 then 0 else if i > (len : Int) then (len : Int) else i

/-- Embeds `navigateHistory` (main.go lines 201-222): move the cursor by
`direction` clamped to `[0, len]`; when the cursor actually moves, set
the input text to `""` at the end of history, otherwise (when history is
non-empty) to the entry at the cursor, and recompute the browsing flag;
when the move would not change the cursor, do nothing. -/
def navigateHistory (m : Model) (direction : Int) : Model :=
  if clampIndex (m.historyIndex + direction) m.history.length ≠ m.historyIndex then
    { m with
        historyIndex := clampIndex (m.historyIndex + direction) m.history.length
        inputValue :=
          if clampIndex (m.historyIndex + direction) m.history.length
              = (m.history.length : Int) then ""
          else if 0 < m.history.length then
            m.history.getD (clampIndex (m.historyIndex + direction) m.history.length).toNat ""
          else m.inputValue
        browsingHist :=
          decide (clampIndex (m.historyIndex + direction) m.history.length
            < (m.history.length : Int)) }
  else m

/-- The accumulator of the merge loop (main.go lines 310-338): the
growing message list, the growing id set, and the `messagesAdded`
flag. -/
structure MergeAcc where
  messages : List FormattedMessage
  messageIDs : List String
  messagesAdded : Bool
deriving DecidableEq, Repr

/-- One iteration of the merge loop (main.go lines 310-338): skip an
already-seen id; otherwise derive the timestamp from the id, resolve the
username (falling back to "unknown"), render the line, append the
message, record the id, and set `messagesAdded`. -/
def processIncomingMessage (ctx : Ctx) (acc : MergeAcc) (message : SlackMessage) : MergeAcc :=
  if acc.messageIDs.contains message.ts then acc
  else
    let timestamp := ctx.parseTs message.ts
    let username := (ctx.resolveUser message).getD "unknown"
    let formattedText := ctx.renderLine timestamp username message.text
    { messages := acc.messages ++ [⟨formattedText, timestamp, message.ts⟩]
      messageIDs := acc.messageIDs ++ [message.ts]
      messagesAdded := true }

/-- Embeds `updateViewportContent` (main.go lines 375-386): the viewport
content becomes the concatenation of every rendered line followed by a
newline (`GotoBottom` is external). -/
def updateViewportContent (m : Model) : Model :=
  { m with viewportContent := String.join (m.messages.map (fun msg => msg.text ++ "\n")) }

/-- Embeds the successful-fetch branch of `Update` (main.go lines
305-354): when the batch is non-empty, run the merge loop; if anything
was added, re-sort the whole sequence with `ctx.sortImpl` (the
`sort.Slice` call), set `lastFetched` to the id of the batch's first
element, and recompute the viewport content. -/
def handleFetchSuccess (ctx : Ctx) (m : Model) (incoming : List SlackMessage) : Model :=
  if 0 < incoming.length then
    let acc := incoming.foldl (processIncomingMessage ctx)
      ⟨m.messages, m.messageIDs, false⟩
    let merged := { m with messages := acc.messages, messageIDs := acc.messageIDs }
    if acc.messagesAdded then
      let sorted := { merged with messages := ctx.sortImpl merged.messages }
      let cursored :=
        match incoming with
        | [] => sorted
        | first :: _ => { sorted with lastFetched := first.ts }
      updateViewportContent cursored
    else merged
  else m

/-- Embeds `Update` (main.go lines 224-373) restricted to the modelled
state and the core commands it launches.  Branches that in Go fall
through to the component updates (`m.input.Update`, `m.viewport.Update`)
leave the modelled fields untouched, except that a pass-through key
event (`keyOther`) carries the input text produced by the external
textinput component. -/
def update (ctx : Ctx) (m : Model) (msg : Event) : Model × List Cmd :=
  match msg with
  | .keyEsc => (m, [Cmd.quit])
  | .keyCtrlC => (m, [Cmd.quit])
  | .keyEnter =>
    if isBlank m.inputValue then (m, [])
    else
      let text := m.inputValue
      let appended := appendToHistory ctx m text
      let withErr :=
        match appended.2 with
        | some e => { appended.1 with err := some e }
        | none => appended.1
      ({ withErr with inputValue := "", browsingHist := false },
       [Cmd.sendThenDelayedRefresh m.channelID text])
  | .keyUp => (navigateHistory m (-1), [])
  | .keyDown => (navigateHistory m 1, [])
  | .keyOther newInput => ({ m with inputValue := newInput }, [])
  | .windowSize _ _ => (updateViewportContent { m with ready := true }, [])
  | .redrawViewport => (updateViewportContent m, [])
  | .tick =>
    ({ m with refreshCount := m.refreshCount + 1 },
     [Cmd.tick, Cmd.fetchMessages m.channelID m.lastFetched])
  | .fetchCompleted messages err =>
    match err with
    | some e => ({ m with err := some e }, [])
    | none =>
      match messages with
      | none => (m, [Cmd.fetchMessages m.channelID ""])
      | some incoming => (handleFetchSuccess ctx m incoming, [])
  | .sendCompleted err =>
    match err with
    | some e => ({ m with err := some e }, [])
    | none => (m, [Cmd.fetchMessages m.channelID ""])

/-- The documented contract of `sort.Slice` applied to the timestamp
comparison of main.go line 342: the result is sorted non-decreasingly by
timestamp and is a permutation of the input.  Stability is deliberately
absent: `sort.Slice` does not guarantee it. -/
def SortSpec (f : List FormattedMessage → List FormattedMessage) : Prop :=
  ∀ l : List FormattedMessage,
    (f l).Sorted (fun a b => a.timestamp ≤ b.timestamp) ∧ (f l).Perm l

/-- Modelled from the spec: `client.History` (SlackClient, a repository
file not under src/) returns `{messages: ordered sequence}`; a
successful fetch that finds no new messages delivers an empty sequence,
which is distinct from the nil-messages sentinel `fetchMessagesMsg{nil,
nil}` injected by the delayed post-send refresh. -/
def emptyFetchCompletion : Event :=
  .fetchCompleted (some []) none

instance : IsTotal FormattedMessage (fun a b => a.timestamp ≤ b.timestamp) :=
  ⟨fun a b => Int.le_total a.timestamp b.timestamp⟩

instance : IsTrans FormattedMessage (fun a b => a.timestamp ≤ b.timestamp) :=
  ⟨fun _ _ _ hab hbc => le_trans hab hbc⟩

/-- A concrete sorting function satisfying `SortSpec`, used to
instantiate the abstract `sort.Slice` in witnesses and concrete runs. -/
def tsSort : List FormattedMessage → List FormattedMessage :=
  List.insertionSort (fun a b => a.timestamp ≤ b.timestamp)

/-- A concrete context for witnesses and counterexamples.  The fields it
fixes (username resolution, timestamp parsing, line rendering) do not
influence the claims evaluated with it; the sort is the concrete
`tsSort`. -/
def demoCtx : Ctx :=
  { resolveUser := fun _ => none
    parseTs := fun _ => 0
    renderLine := fun _ username text => username ++ ": " ++ text
    sortImpl := tsSort
    historyWriteErr := none }

/-- `demoCtx` with a failing history-file write. -/
def failCtx : Ctx :=
  { demoCtx with historyWriteErr := some "disk full" }

/-- C2 counterexample data: a first fetch delivers ids "200" and "100"
(newest first), setting the cursor to "200"; a second fetch then
delivers only the already-stored "100". -/
def dupMsgNew : SlackMessage :=
  ⟨"200", "hello", "alice"⟩

def dupMsgOld : SlackMessage :=
  ⟨"100", "world", "bob"⟩

def dupState1 : Model :=
  (update demoCtx (initialModel "C042" "general" [])
    (.fetchCompleted (some [dupMsgNew, dupMsgOld]) none)).1

def dupState2 : Model :=
  (update demoCtx dupState1 (.fetchCompleted (some [dupMsgOld]) none)).1

/-- A reachable state with non-blank live input "hi", obtained by typing
into the empty initial model (write failures pending via `failCtx`). -/
def submitModel : Model :=
  (update failCtx (initialModel "C8chan" "general" []) (.keyOther "hi")).1

/-- A reachable state browsing history: one entry "hello", cursor moved
up onto it, so the input shows the entry while `browsingHist` is on. -/
def browseModel : Model :=
  (update demoCtx (initialModel "C10chan" "general" ["hello"]) .keyUp).1

/-- C3: a successful fetch completion carrying an empty message batch
leaves the whole modelled session state unchanged and launches no
command. -/
theorem C3_empty_batch_noop (ctx : Ctx) (m : Model) :
    update ctx m emptyFetchCompletion = (m, []) := by
  rfl

/-- C6: submitting a blank string, or a string equal to the last history
entry, never appends to the history and leaves the cursor alone; every
other submission appends exactly one entry and resets the cursor to the
new length. -/
theorem C6_history_append (ctx : Ctx) (m : Model) (message : String) :
    ((appendToHistory ctx m message).1.history =
      if isBlank message = true ∨ m.history.getLast? = some message then m.history
      else m.history ++ [message]) ∧
    ((appendToHistory ctx m message).1.historyIndex =
      if isBlank message = true ∨ m.history.getLast? = some message then m.historyIndex
      else ((m.history.length : Int) + 1)) := by
  unfold appendToHistory
  by_cases hb : isBlank message
  · simp [hb]
  · by_cases hd : m.history.getLast? = some message
    · simp [hb, hd]
    · simp [hb, hd]

theorem contains_true_iff (l : List String) (x : String) :
    l.contains x = true ↔ x ∈ l := by
  simp [List.contains_iff_exists_mem_beq]

theorem mergeFold_contains_mono (ctx : Ctx) (l : List SlackMessage) (acc : MergeAcc)
    (x : String) (h : acc.messageIDs.contains x = true) :
    ((l.foldl (processIncomingMessage ctx) acc).messageIDs.contains x) = true := by
  induction l generalizing acc with
  | nil => exact h
  | cons msg rest ih =>
    rw [List.foldl_cons]
    apply ih
    unfold processIncomingMessage
    by_cases hc : acc.messageIDs.contains msg.ts = true
    · rw [if_pos hc]; exact h
    · rw [if_neg hc]
      show (acc.messageIDs ++ [msg.ts]).contains x = true
      rw [contains_true_iff] at h ⊢
      exact List.mem_append_left _ h

theorem mergeFold_seen (ctx : Ctx) (l : List SlackMessage) (acc : MergeAcc)
    (msg : SlackMessage) (hm : msg ∈ l) :
    ((l.foldl (processIncomingMessage ctx) acc).messageIDs.contains msg.ts) = true := by
  induction l generalizing acc with
  | nil => cases hm
  | cons a rest ih =>
    rw [List.foldl_cons]
    rcases List.mem_cons.mp hm with heq | hrest
    · subst heq
      apply mergeFold_contains_mono
      unfold processIncomingMessage
      by_cases hc : acc.messageIDs.contains msg.ts = true
      · rw [if_pos hc]; exact hc
      · rw [if_neg hc]
        show (acc.messageIDs ++ [msg.ts]).contains msg.ts = true
        rw [contains_true_iff]
        exact List.mem_append_right _ (List.mem_singleton.mpr rfl)
    · exact ih _ hrest

theorem mergeFold_all_seen_noop (ctx : Ctx) (l : List SlackMessage) (acc : MergeAcc)
    (h : ∀ msg ∈ l, acc.messageIDs.contains msg.ts = true) :
    l.foldl (processIncomingMessage ctx) acc = acc := by
  induction l with
  | nil => rfl
  | cons a rest ih =>
    rw [List.foldl_cons]
    have ha : processIncomingMessage ctx acc a = acc := by
      unfold processIncomingMessage
      rw [if_pos (h a (List.mem_cons_self a rest))]
    rw [ha]
    exact ih (fun msg hmsg => h msg (List.mem_cons_of_mem a hmsg))

theorem mergeFold_flag_mono (ctx : Ctx) (l : List SlackMessage) (acc : MergeAcc)
    (h : acc.messagesAdded = true) :
    (l.foldl (processIncomingMessage ctx) acc).messagesAdded = true := by
  induction l generalizing acc with
  | nil => exact h
  | cons a rest ih =>
    rw [List.foldl_cons]
    apply ih
    unfold processIncomingMessage
    by_cases hc : acc.messageIDs.contains a.ts = true
    · rw [if_pos hc]; exact h
    · rw [if_neg hc]

theorem mergeFold_flag_eq (ctx : Ctx) (l : List SlackMessage) (acc : MergeAcc) :
    (l.foldl (processIncomingMessage ctx) acc).messagesAdded
      = (acc.messagesAdded || l.any (fun msg => !acc.messageIDs.contains msg.ts)) := by
  induction l generalizing acc with
  | nil => simp
  | cons a rest ih =>
    rw [List.foldl_cons, List.any_cons]
    by_cases hc : acc.messageIDs.contains a.ts = true
    · have hstep : processIncomingMessage ctx acc a = acc := by
        unfold processIncomingMessage
        rw [if_pos hc]
      rw [hstep, ih, hc]
      simp
    · have hcf : acc.messageIDs.contains a.ts = false := by
        cases hval : acc.messageIDs.contains a.ts
        · rfl
        · exact absurd hval hc
      have hflag : (processIncomingMessage ctx acc a).messagesAdded = true := by
        unfold processIncomingMessage
        rw [if_neg hc]
      rw [mergeFold_flag_mono ctx rest _ hflag, hcf]
      simp

theorem mergeFold_not_added_eq (ctx : Ctx) (l : List SlackMessage) (acc : MergeAcc)
    (h0 : acc.messagesAdded = false)
    (h : (l.foldl (processIncomingMessage ctx) acc).messagesAdded = false) :
    l.foldl (processIncomingMessage ctx) acc = acc := by
  apply mergeFold_all_seen_noop
  intro msg hmsg
  rw [mergeFold_flag_eq, h0, Bool.false_or] at h
  have h2 := List.any_eq_false.mp h msg hmsg
  cases hval : acc.messageIDs.contains msg.ts with
  | true => rfl
  | false =>
    exact absurd (show (!acc.messageIDs.contains msg.ts) = true by rw [hval]; rfl) h2

theorem handleFetchSuccess_messageIDs (ctx : Ctx) (m : Model) (incoming : List SlackMessage) :
    (handleFetchSuccess ctx m incoming).messageIDs
      = (incoming.foldl (processIncomingMessage ctx)
          ⟨m.messages, m.messageIDs, false⟩).messageIDs := by
  cases incoming with
  | nil => rfl
  | cons first rest =>
    unfold handleFetchSuccess
    simp only [List.length_cons, Nat.zero_lt_succ, if_pos]
    split
    · rfl
    · rfl

/-- C4: merging the same batch a second time changes nothing — after the
first merge every id of the batch is in `messageIDs`, so the second
merge skips everything, never re-sorts, and leaves the whole model (the
message sequence, the seen-id set and the sync cursor included)
untouched, whatever context the second merge runs with. -/
theorem C4_merge_idempotent (ctx₁ ctx₂ : Ctx) (m : Model) (batch : List SlackMessage) :
    (update ctx₂ (update ctx₁ m (.fetchCompleted (some batch) none)).1
        (.fetchCompleted (some batch) none)).1
      = (update ctx₁ m (.fetchCompleted (some batch) none)).1 := by
  show handleFetchSuccess ctx₂ (handleFetchSuccess ctx₁ m batch) batch
      = handleFetchSuccess ctx₁ m batch
  cases batch with
  | nil => rfl
  | cons first rest =>
    have hseen : ∀ msg ∈ first :: rest,
        (handleFetchSuccess ctx₁ m (first :: rest)).messageIDs.contains msg.ts = true := by
      intro msg hmsg
      rw [handleFetchSuccess_messageIDs]
      exact mergeFold_seen ctx₁ _ _ msg hmsg
    set m₁ := handleFetchSuccess ctx₁ m (first :: rest) with hm₁
    have hnoop : (first :: rest).foldl (processIncomingMessage ctx₂)
        ⟨m₁.messages, m₁.messageIDs, false⟩ = ⟨m₁.messages, m₁.messageIDs, false⟩ :=
      mergeFold_all_seen_noop ctx₂ _ _ (fun msg hmsg => hseen msg hmsg)
    unfold handleFetchSuccess
    simp only [List.length_cons, Nat.zero_lt_succ, if_pos, hnoop, if_neg]
    rfl

/-- C2 (amended): the sync cursor is set to the id of the batch's first
element exactly when the merge added at least one previously-unseen
message. -/
theorem C2_cursor_amended (ctx : Ctx) (m : Model) (first : SlackMessage)
    (rest : List SlackMessage)
    (h : ∃ msg ∈ first :: rest, m.messageIDs.contains msg.ts = false) :
    ((update ctx m (.fetchCompleted (some (first :: rest)) none)).1).lastFetched
      = first.ts := by
  show (handleFetchSuccess ctx m (first :: rest)).lastFetched = first.ts
  have hadded : ((first :: rest).foldl (processIncomingMessage ctx)
      ⟨m.messages, m.messageIDs, false⟩).messagesAdded = true := by
    rw [mergeFold_flag_eq]
    simp only [Bool.false_or, List.any_eq_true]
    obtain ⟨msg, hmsg, hunseen⟩ := h
    exact ⟨msg, hmsg, by rw [hunseen]; rfl⟩
  unfold handleFetchSuccess
  simp only [List.length_cons, Nat.zero_lt_succ, if_pos, hadded, if_true]
  rfl

theorem tsSort_sortSpec : SortSpec tsSort := by
  intro l
  exact ⟨List.sorted_insertionSort _ l, List.perm_insertionSort _ l⟩

theorem handleFetchSuccess_sorted (ctx : Ctx) (m : Model) (incoming : List SlackMessage)
    (hs : SortSpec ctx.sortImpl)
    (hm : m.messages.Sorted (fun a b => a.timestamp ≤ b.timestamp)) :
    (handleFetchSuccess ctx m incoming).messages.Sorted
      (fun a b => a.timestamp ≤ b.timestamp) := by
  cases incoming with
  | nil => exact hm
  | cons first rest =>
    unfold handleFetchSuccess
    simp only [List.length_cons, Nat.zero_lt_succ, if_pos]
    by_cases hadd : ((first :: rest).foldl (processIncomingMessage ctx)
        ⟨m.messages, m.messageIDs, false⟩).messagesAdded = true
    · rw [if_pos hadd]
      exact (hs _).1
    · rw [if_neg hadd]
      have hval : ((first :: rest).foldl (processIncomingMessage ctx)
          ⟨m.messages, m.messageIDs, false⟩).messagesAdded = false := by
        cases hv : ((first :: rest).foldl (processIncomingMessage ctx)
            ⟨m.messages, m.messageIDs, false⟩).messagesAdded
        · rfl
        · exact absurd hv hadd
      rw [mergeFold_not_added_eq ctx _ _ rfl hval]
      exact hm

/-- C5: starting from the empty store, any sequence of merges — each run
with a sort implementation meeting the documented `sort.Slice` contract
— leaves the message sequence sorted non-decreasingly by timestamp. -/
theorem C5_merge_sorted (channelID channelName : String) (history : List String)
    (steps : List (Ctx × List SlackMessage))
    (h : ∀ s ∈ steps, SortSpec s.1.sortImpl) :
    ((steps.foldl (fun m s => (update s.1 m (.fetchCompleted (some s.2) none)).1)
        (initialModel channelID channelName history)).messages).Sorted
      (fun a b => a.timestamp ≤ b.timestamp) := by
  have H : ∀ (l : List (Ctx × List SlackMessage)) (m : Model),
      (∀ s ∈ l, SortSpec s.1.sortImpl) →
      m.messages.Sorted (fun a b => a.timestamp ≤ b.timestamp) →
      ((l.foldl (fun m s => (update s.1 m (.fetchCompleted (some s.2) none)).1)
          m).messages).Sorted (fun a b => a.timestamp ≤ b.timestamp) := by
    intro l
    induction l with
    | nil => intro m _ hm; exact hm
    | cons s rest ih =>
      intro m hl hm
      rw [List.foldl_cons]
      refine ih _ (fun x hx => hl x (List.mem_cons_of_mem s hx)) ?_
      show (handleFetchSuccess s.1 m s.2).messages.Sorted
        (fun a b => a.timestamp ≤ b.timestamp)
      exact handleFetchSuccess_sorted s.1 m s.2 (hl s (List.mem_cons_self s rest)) hm
  exact H steps _ h List.sorted_nil

theorem C5_merge_sorted_witness :
    ((([(demoCtx, [(⟨"5", "later", "u1"⟩ : SlackMessage), ⟨"3", "earlier", "u2"⟩]),
        (demoCtx, [(⟨"4", "middle", "u3"⟩ : SlackMessage)])] :
          List (Ctx × List SlackMessage)).foldl
        (fun m s => (update s.1 m (.fetchCompleted (some s.2) none)).1)
        (initialModel "C5chan" "general" [])).messages).Sorted
      (fun a b => a.timestamp ≤ b.timestamp) := by
  refine C5_merge_sorted "C5chan" "general" [] _ ?_
  intro s hs
  rcases List.mem_cons.mp hs with h1 | h2
  · rw [h1]; exact tsSort_sortSpec
  · rw [List.mem_singleton.mp h2]; exact tsSort_sortSpec

/-- C2 counterexample: `dupState1` already stores message id "100" and
has sync cursor "200"; a successful fetch completion with the non-empty,
wholly-duplicate batch `[dupMsgOld]` (first element id "100") leaves the
cursor at "200" instead of setting it to "100" as the claim requires. -/
theorem C2_cursor_counterexample :
    dupState1.messageIDs.contains dupMsgOld.ts = true ∧
    dupState1.lastFetched = "200" ∧
    dupState2.lastFetched = "200" ∧
    ¬ dupState2.lastFetched = dupMsgOld.ts := by
  refine ⟨by decide, by decide, by decide, by decide⟩

theorem C2_cursor_amended_witness :
    ((update demoCtx (initialModel "C042w" "general" [])
        (.fetchCompleted (some [⟨"300", "hi", "carol"⟩]) none)).1).lastFetched
      = "300" :=
  C2_cursor_amended demoCtx (initialModel "C042w" "general" []) ⟨"300", "hi", "carol"⟩ []
    ⟨⟨"300", "hi", "carol"⟩, List.mem_singleton.mpr rfl, by decide⟩

theorem clampIndex_nonneg (i : Int) (len : Nat) : 0 ≤ clampIndex i len := by
  unfold clampIndex
  split
  · omega
  · split <;> omega

theorem clampIndex_le (i : Int) (len : Nat) : clampIndex i len ≤ (len : Int) := by
  unfold clampIndex
  split
  · omega
  · split <;> omega

theorem navigateHistory_history (m : Model) (d : Int) :
    (navigateHistory m d).history = m.history := by
  unfold navigateHistory
  split
  · rfl
  · rfl

theorem navigateHistory_historyIndex (m : Model) (d : Int) :
    (navigateHistory m d).historyIndex
      = clampIndex (m.historyIndex + d) m.history.length := by
  unfold navigateHistory
  split
  · rfl
  · next h => exact (not_ne_iff.mp h).symm

theorem navigateHistory_iterate_history (d : Int) (n : Nat) (m : Model) :
    (((fun s => navigateHistory s d)^[n]) m).history = m.history := by
  induction n generalizing m with
  | zero => rfl
  | succ k ih =>
    rw [Function.iterate_succ_apply, ih (navigateHistory m d)]
    exact navigateHistory_history m d

theorem navDown_reaches_zero (n : Nat) (m : Model)
    (h0 : 0 ≤ m.historyIndex) (h1 : m.historyIndex ≤ (n : Int)) :
    (((fun s => navigateHistory s (-1))^[n]) m).historyIndex = 0 := by
  induction n generalizing m with
  | zero =>
    simp only [Function.iterate_zero, id_eq]
    omega
  | succ k ih =>
    rw [Function.iterate_succ_apply]
    apply ih
    · rw [navigateHistory_historyIndex]
      exact clampIndex_nonneg _ _
    · rw [navigateHistory_historyIndex]
      unfold clampIndex
      split
      · omega
      · split <;> omega

theorem navUp_reaches_len (n : Nat) (m : Model)
    (h0 : 0 ≤ m.historyIndex) (h1 : m.historyIndex ≤ (m.history.length : Int))
    (h2 : (m.history.length : Int) - m.historyIndex ≤ (n : Int)) :
    (((fun s => navigateHistory s 1)^[n]) m).historyIndex = (m.history.length : Int) := by
  induction n generalizing m with
  | zero =>
    simp only [Function.iterate_zero, id_eq]
    omega
  | succ k ih =>
    rw [Function.iterate_succ_apply]
    have hh : (navigateHistory m 1).history = m.history := navigateHistory_history m 1
    have h0a : 0 ≤ (navigateHistory m 1).historyIndex := by
      rw [navigateHistory_historyIndex]
      exact clampIndex_nonneg _ _
    have h1a : (navigateHistory m 1).historyIndex
        ≤ ((navigateHistory m 1).history.length : Int) := by
      rw [navigateHistory_historyIndex, hh]
      exact clampIndex_le _ _
    have h2a : ((navigateHistory m 1).history.length : Int)
        - (navigateHistory m 1).historyIndex ≤ (k : Int) := by
      rw [navigateHistory_historyIndex, hh]
      unfold clampIndex
      split
      · omega
      · split <;> omega
    have hres := ih (navigateHistory m 1) h0a h1a h2a
    rw [hh] at hres
    exact hres

theorem navigateHistory_fix_zero (m : Model) (h : m.historyIndex = 0) :
    navigateHistory m (-1) = m := by
  have hc : clampIndex (m.historyIndex + (-1)) m.history.length = m.historyIndex := by
    unfold clampIndex
    split
    · omega
    · split <;> omega
  unfold navigateHistory
  simp [hc]

theorem navigateHistory_fix_len (m : Model) (h : m.historyIndex = (m.history.length : Int)) :
    navigateHistory m 1 = m := by
  have hc : clampIndex (m.historyIndex + 1) m.history.length = m.historyIndex := by
    unfold clampIndex
    split
    · omega
    · split <;> omega
  unfold navigateHistory
  simp [hc]

theorem navigateHistory_inputValue_moved (m : Model) (d : Int)
    (hc : clampIndex (m.historyIndex + d) m.history.length ≠ m.historyIndex) :
    (navigateHistory m d).inputValue =
      (if clampIndex (m.historyIndex + d) m.history.length = (m.history.length : Int)
       then ""
       else m.history.getD (clampIndex (m.historyIndex + d) m.history.length).toNat "") := by
  unfold navigateHistory
  rw [if_pos hc]
  by_cases hlen : clampIndex (m.historyIndex + d) m.history.length = (m.history.length : Int)
  · rw [if_pos hlen, if_pos hlen]
  · have hnn := clampIndex_nonneg (m.historyIndex + d) m.history.length
    have hle := clampIndex_le (m.historyIndex + d) m.history.length
    have hpos : 0 < m.history.length := by omega
    rw [if_neg hlen, if_neg hlen, if_pos hpos]

/-- C7: history navigation is clamped to `[0, len]`: `m.history.length + 1`
steps of `navigate(-1)` reach cursor 0 from anywhere and a further step
changes nothing; likewise `navigate(+1)` reaches `len` and sticks; the
cursor moves exactly to the clamped target; when it moves, the input
text becomes empty at `len` and the entry at the cursor otherwise; a
move that would not change the cursor leaves the whole state (the input
text included) unchanged. -/
theorem C7_navigation_bounds (m : Model) :
    ((((fun s => navigateHistory s (-1))^[m.history.length + 1]) m).historyIndex = 0) ∧
    (navigateHistory (((fun s => navigateHistory s (-1))^[m.history.length + 1]) m) (-1)
      = (((fun s => navigateHistory s (-1))^[m.history.length + 1]) m)) ∧
    ((((fun s => navigateHistory s 1)^[m.history.length + 1]) m).historyIndex
      = (m.history.length : Int)) ∧
    (navigateHistory (((fun s => navigateHistory s 1)^[m.history.length + 1]) m) 1
      = (((fun s => navigateHistory s 1)^[m.history.length + 1]) m)) ∧
    (∀ d : Int,
      (navigateHistory m d).historyIndex
        = clampIndex (m.historyIndex + d) m.history.length ∧
      ((navigateHistory m d).historyIndex = m.historyIndex → navigateHistory m d = m) ∧
      ((navigateHistory m d).historyIndex ≠ m.historyIndex →
        (navigateHistory m d).inputValue =
          (if (navigateHistory m d).historyIndex = (m.history.length : Int) then ""
           else m.history.getD (navigateHistory m d).historyIndex.toNat ""))) := by
  have hdown : (((fun s => navigateHistory s (-1))^[m.history.length + 1]) m).historyIndex
      = 0 := by
    rw [Function.iterate_succ_apply]
    apply navDown_reaches_zero
    · rw [navigateHistory_historyIndex]
      exact clampIndex_nonneg _ _
    · rw [navigateHistory_historyIndex]
      have := clampIndex_le (m.historyIndex + (-1)) m.history.length
      omega
  have hup : (((fun s => navigateHistory s 1)^[m.history.length + 1]) m).historyIndex
      = (m.history.length : Int) := by
    rw [Function.iterate_succ_apply]
    have hh : (navigateHistory m 1).history = m.history := navigateHistory_history m 1
    have h0a : 0 ≤ (navigateHistory m 1).historyIndex := by
      rw [navigateHistory_historyIndex]
      exact clampIndex_nonneg _ _
    have h1a : (navigateHistory m 1).historyIndex
        ≤ ((navigateHistory m 1).history.length : Int) := by
      rw [navigateHistory_historyIndex, hh]
      exact clampIndex_le _ _
    have h2a : ((navigateHistory m 1).history.length : Int)
        - (navigateHistory m 1).historyIndex ≤ (m.history.length : Int) := by
      rw [hh]
      omega
    have hres := navUp_reaches_len m.history.length (navigateHistory m 1) h0a h1a h2a
    rw [hh] at hres
    exact hres
  refine ⟨hdown, navigateHistory_fix_zero _ hdown, hup, ?_, ?_⟩
  · apply navigateHistory_fix_len
    rw [navigateHistory_iterate_history]
    exact hup
  · intro d
    refine ⟨navigateHistory_historyIndex m d, ?_, ?_⟩
    · intro h
      rw [navigateHistory_historyIndex] at h
      unfold navigateHistory
      rw [if_neg (not_not_intro h)]
    · intro hne
      rw [navigateHistory_historyIndex] at hne
      rw [navigateHistory_historyIndex]
      exact navigateHistory_inputValue_moved m d hne

theorem C7_navigation_bounds_witness :
    navigateHistory (initialModel "C7chan" "general" ["alpha", "beta"]) 1
      = initialModel "C7chan" "general" ["alpha", "beta"] := by
  have h := (C7_navigation_bounds (initialModel "C7chan" "general" ["alpha", "beta"])).2.2.2.2 1
  exact h.2.1 (by decide)

/-- C8: when the durable write of an accepted submission fails, the
in-memory history entry is kept (no rollback), the error is surfaced in
the session's error field, and the send-then-delayed-refresh sequence
for the submitted text is still launched. -/
theorem C8_write_failure_no_rollback (ctx : Ctx) (m : Model) (e : String)
    (hblank : isBlank m.inputValue = false)
    (hdup : ¬ m.history.getLast? = some m.inputValue)
    (herr : ctx.historyWriteErr = some e) :
    (update ctx m .keyEnter).1.history = m.history ++ [m.inputValue] ∧
    (update ctx m .keyEnter).1.err = some e ∧
    (update ctx m .keyEnter).2 = [Cmd.sendThenDelayedRefresh m.channelID m.inputValue] := by
  have hb : ¬ (isBlank m.inputValue = true) := by
    rw [hblank]; exact Bool.false_ne_true
  simp only [update, appendToHistory]
  rw [if_neg hb]
  rw [if_neg hb]
  rw [if_neg hdup, herr]
  exact ⟨rfl, rfl, rfl⟩

theorem C8_write_failure_no_rollback_witness :
    (update failCtx submitModel .keyEnter).1.history
      = submitModel.history ++ [submitModel.inputValue] ∧
    (update failCtx submitModel .keyEnter).1.err = some "disk full" ∧
    (update failCtx submitModel .keyEnter).2
      = [Cmd.sendThenDelayedRefresh submitModel.channelID submitModel.inputValue] :=
  C8_write_failure_no_rollback failCtx submitModel "disk full"
    (by decide) (by decide) rfl

/-- C10: submitting text equal to the last history entry while browsing
(cursor < len) clears browsing mode and empties the input, but the
duplicate-rejecting early return of `appendToHistory` skips the cursor
reset, so the cursor stays strictly below `len` with browsing off. -/
theorem C10_dup_submit_browsing (ctx : Ctx) (m : Model)
    (hblank : isBlank m.inputValue = false)
    (hdup : m.history.getLast? = some m.inputValue)
    (hidx : m.historyIndex < (m.history.length : Int)) :
    (update ctx m .keyEnter).1.historyIndex = m.historyIndex ∧
    (update ctx m .keyEnter).1.historyIndex
      < (((update ctx m .keyEnter).1.history.length : Int)) ∧
    (update ctx m .keyEnter).1.browsingHist = false ∧
    (update ctx m .keyEnter).1.inputValue = "" ∧
    (update ctx m .keyEnter).1.history = m.history := by
  have hb : ¬ (isBlank m.inputValue = true) := by
    rw [hblank]; exact Bool.false_ne_true
  simp only [update, appendToHistory]
  rw [if_neg hb]
  rw [if_neg hb]
  rw [if_pos hdup]
  exact ⟨rfl, hidx, rfl, rfl, rfl⟩

theorem C10_dup_submit_browsing_witness :
    (update demoCtx browseModel .keyEnter).1.historyIndex = browseModel.historyIndex ∧
    (update demoCtx browseModel .keyEnter).1.historyIndex
      < (((update demoCtx browseModel .keyEnter).1.history.length : Int)) ∧
    (update demoCtx browseModel .keyEnter).1.browsingHist = false ∧
    (update demoCtx browseModel .keyEnter).1.inputValue = "" ∧
    (update demoCtx browseModel .keyEnter).1.history = browseModel.history :=
  C10_dup_submit_browsing demoCtx browseModel (by decide) (by decide) (by decide)

end Slkops
